import Mathlib

/-!
# Verification of the floor routing and middleware-dispatch engine

A shallow embedding of `src/router/mod.rs` (pattern compiler, route table,
router middleware) together with the middleware-chain and error-handler-chain
engines described by the specification.  Strings are modelled as `List Char`
(with `String` wrappers), the `regex` crate is modelled by a small regular
expression AST (`Rx`) with an executable backtracking matcher that records
capture groups, and Rust panics are modelled by `Option`.
-/

set_option maxRecDepth 8192
set_option linter.unusedVariables false

namespace Floor

/-- HTTP methods, from `http::method::Method` (the variants used by the router). -/
inductive Method where
  | Get
  | Post
  | Put
  | Delete
  | Head
  | Options
  | Patch
deriving DecidableEq, Repr

/-- A character class: a union of inclusive character ranges.  Single
characters are ranges `(c, c)`.  This models the bracket expressions
(`[,a-zA-Z0-9_-]` and friends) appearing in the compiled route regexes. -/
abbrev CClass := List (Char × Char)

/-- Membership test of a character in a character class. -/
def CClass.test (cs : CClass) (c : Char) : Bool :=
  cs.any (fun p => decide (p.1 ≤ c) && decide (c ≤ p.2))

/-- The regular-expression AST covering the fragment of regex syntax emitted
by the pattern compiler: literal characters, starred character classes,
numbered capturing groups, greedy optional groups and sequencing.  The whole
expression is implicitly anchored at both ends (the compiler always emits
`^ ... $`). -/
inductive Rx where
  | eps  : Rx
  | lit  : Char → Rx
  | star : CClass → Rx
  | grp  : Nat → Rx → Rx
  | opt  : Rx → Rx
  | cat  : Rx → Rx → Rx
deriving DecidableEq, Repr

/-- Captures recorded during a match: pairs of group index and consumed text. -/
abbrev Capts := List (Nat × List Char)

/-- All ways a starred character class can consume a prefix of the input,
longest (greedy) first.  Each result is `(consumed, remaining)`. -/
def starSplits (cs : CClass) : List Char → List (List Char × List Char)
  | [] => [([], [])]
  | c :: s =>
    if CClass.test cs c then
      (starSplits cs s).map (fun p => (c :: p.1, p.2)) ++ [([], c :: s)]
    else
      [([], c :: s)]

/-- The backtracking matcher.  `msmatch r s` returns every way `r` can match
a prefix of `s`, in greedy leftmost-first preference order, as triples
`(consumed, remaining, captures)`.  This models the leftmost-first match
semantics of the Rust `regex` crate on the emitted fragment. -/
def msmatch : Rx → List Char → List (List Char × List Char × Capts)
  | .eps, s => [([], s, [])]
  | .lit c, s =>
    match s with
    | [] => []
    | x :: s' => if x = c then [([c], s', [])] else []
  | .star cs, s => (starSplits cs s).map (fun p => (p.1, p.2, []))
  | .grp i r, s => (msmatch r s).map (fun t => (t.1, t.2.1, (i, t.1) :: t.2.2))
  | .opt r, s => (msmatch r s) ++ [([], s, [])]
  | .cat a b, s =>
    (msmatch a s).flatMap (fun t =>
      (msmatch b t.2.1).map (fun u => (t.1 ++ u.1, u.2.1, t.2.2 ++ u.2.2)))

/-- `Regex::is_match`: the anchored expression matches the whole input. -/
def is_match (r : Rx) (s : List Char) : Bool :=
  (msmatch r s).any (fun t => t.2.1.isEmpty)

/-- `Regex::captures`: the captures of the preferred (first) full match. -/
def capts (r : Rx) (s : List Char) : Option Capts :=
  ((msmatch r s).find? (fun t => t.2.1.isEmpty)).map (fun t => t.2.2)

/-- `Captures::at i`: the text of capture group `i`, or `""` when the group
did not participate in the match (the behaviour of the 2014 `regex` crate). -/
def capturesAt (caps : Capts) (i : Nat) : String :=
  String.mk (((caps.find? (fun p => p.1 == i)).map (fun p => p.2)).getD [])

/-- Declarative whole-string matching relation for `Rx`, used to reason about
the executable matcher. -/
inductive Matches : Rx → List Char → Prop where
  | eps : Matches .eps []
  | lit (c : Char) : Matches (.lit c) [c]
  | star {cs : CClass} {t : List Char} :
      t.all (CClass.test cs) = true → Matches (.star cs) t
  | grp {i : Nat} {r : Rx} {t : List Char} :
      Matches r t → Matches (.grp i r) t
  | optSome {r : Rx} {t : List Char} :
      Matches r t → Matches (.opt r) t
  | optNone {r : Rx} : Matches (.opt r) []
  | cat {a b : Rx} {t u : List Char} :
      Matches a t → Matches b u → Matches (.cat a b) (t ++ u)

/-! ## The pattern compiler (`path_utils` in `src/router/mod.rs`) -/

/-- The character class of the variable-name regex `:([,a-zA-Z0-9_-]*)`
(`REGEX_VAR_SEQ`), also the class of `VAR_SEQ`. -/
def nameChar (c : Char) : Bool :=
  c = ',' || ('a' ≤ c && c ≤ 'z') || ('A' ≤ c && c ≤ 'Z') ||
  ('0' ≤ c && c ≤ '9') || c = '_' || c = '-'

/-- `VAR_SEQ`: the fragment substituted for a single `*` wildcard. -/
def VAR_SEQ : String := "[,a-zA-Z0-9_-]*"

/-- `VAR_SEQ_WITH_SLASH`: the fragment substituted for a `**` wildcard. -/
def VAR_SEQ_WITH_SLASH : String := "[,/a-zA-Z0-9_-]*"

/-- `VAR_SEQ_WITH_CAPTURE`: the capturing fragment substituted for `:name`. -/
def VAR_SEQ_WITH_CAPTURE : String := "([,a-zA-Z0-9%_-]*)"

/-- `REGEX_PARAM_SEQ`: the optional query-string suffix. -/
def REGEX_PARAM_SEQ : String := "(\\?[a-zA-Z0-9%_=&-]*)?"

/-- `REGEX_START`. -/
def REGEX_START : String := "^"

/-- `REGEX_END`. -/
def REGEX_END : String := "$"

/-- Recursion core of `replaceSub`, structurally recursive on a fuel
argument so that it evaluates inside the kernel; the fuel is always at least
the length of the string being scanned. -/
def replaceSubGo (pat rep : List Char) : Nat → List Char → List Char
  | 0, s => s
  | _ + 1, [] => []
  | fuel + 1, c :: rest =>
    if pat ≠ [] ∧ pat.isPrefixOf (c :: rest) then
      rep ++ replaceSubGo pat rep fuel ((c :: rest).drop pat.length)
    else
      c :: replaceSubGo pat rep fuel rest

/-- Rust `str::replace`: replace every non-overlapping occurrence of `pat`
(scanning left to right) by `rep`.  An empty `pat` leaves the string
unchanged (the route compiler only uses non-empty patterns). -/
def replaceSub (pat rep s : List Char) : List Char :=
  replaceSubGo pat rep s.length s

/-- Recursion core of `replaceVarSeq`, structurally recursive on fuel. -/
def replaceVarSeqGo : Nat → List Char → List Char
  | 0, s => s
  | _ + 1, [] => []
  | fuel + 1, c :: rest =>
    if c = ':' then
      VAR_SEQ_WITH_CAPTURE.data ++ replaceVarSeqGo fuel (rest.dropWhile nameChar)
    else
      c :: replaceVarSeqGo fuel rest

/-- `REGEX_VAR_SEQ.replace_all(_, VAR_SEQ_WITH_CAPTURE)`: replace each
occurrence of `:` followed by the greedy run of name characters with the
capturing fragment. -/
def replaceVarSeq (s : List Char) : List Char :=
  replaceVarSeqGo s.length s

/-- The regex source string built by `path_utils::create_regex` before it is
handed to `Regex::new`: mark `**`, replace `*`, restore `**`, replace the
`:name` variables, then wrap with the start anchor, the optional query-string
suffix and the end anchor. -/
def create_regex_src (route_path : String) : String :=
  let p1 := replaceSub "**".data "___DOUBLE_WILDCARD___".data route_path.data
  let p2 := replaceSub "*".data VAR_SEQ.data p1
  let updated_path := replaceSub "___DOUBLE_WILDCARD___".data VAR_SEQ_WITH_SLASH.data p2
  String.mk (REGEX_START.data ++ replaceVarSeq updated_path ++
             REGEX_PARAM_SEQ.data ++ REGEX_END.data)

/-- Parse the items of a bracket expression up to the closing `]`.
Supports single characters, `a-z` ranges and a trailing literal `-`. -/
def parseClassItems : List Char → Option (CClass × List Char)
  | [] => none
  | ']' :: rest => some ([], rest)
  | a :: '-' :: b :: rest =>
    if b = ']' then
      some ([(a, a), ('-', '-')], rest)
    else do
      let (cs, r) ← parseClassItems rest
      some ((a, b) :: cs, r)
  | a :: rest => do
    let (cs, r) ← parseClassItems rest
    some ((a, a) :: cs, r)

/-- Recursive-descent parser for the regex fragment emitted by the pattern
compiler (modelling `Regex::new`).  `parseSeq fuel s k` parses a sequence of
pieces until the end of input or an unmatched `)`, numbering capture groups
from `k` in order of their opening parenthesis; it returns the parsed
expression, the unconsumed input and the next group number.  Unsupported
constructs make the parser (and hence the modelled `Regex::new`) fail. -/
def parseSeq : Nat → List Char → Nat → Option (Rx × List Char × Nat)
  | 0, _, _ => none
  | _ + 1, [], k => some (.eps, [], k)
  | _ + 1, ')' :: rest, k => some (.eps, ')' :: rest, k)
  | fuel + 1, c :: rest, k =>
    if c = '\\' then
      match rest with
      | [] => none
      | d :: rest1 =>
        match rest1 with
        | '?' :: rest2 => do
          let (tail, r, k') ← parseSeq fuel rest2 k
          some (.cat (.opt (.lit d)) tail, r, k')
        | '*' :: rest2 => do
          let (tail, r, k') ← parseSeq fuel rest2 k
          some (.cat (.star [(d, d)]) tail, r, k')
        | _ => do
          let (tail, r, k') ← parseSeq fuel rest1 k
          some (.cat (.lit d) tail, r, k')
    else if c = '[' then do
      let (cls, rest1) ← parseClassItems rest
      match rest1 with
      | '*' :: rest2 =>
        match rest2 with
        | '?' :: _ => none
        | '*' :: _ => none
        | '+' :: _ => none
        | _ => do
          let (tail, r, k') ← parseSeq fuel rest2 k
          some (.cat (.star cls) tail, r, k')
      | _ => none
    else if c = '(' then do
      let (inner, rest1, k1) ← parseSeq fuel rest (k + 1)
      match rest1 with
      | ')' :: rest2 =>
        match rest2 with
        | '?' :: rest3 => do
          let (tail, r, k') ← parseSeq fuel rest3 k1
          some (.cat (.opt (.grp k inner)) tail, r, k')
        | '*' :: _ => none
        | '+' :: _ => none
        | _ => do
          let (tail, r, k') ← parseSeq fuel rest2 k1
          some (.cat (.grp k inner) tail, r, k')
      | _ => none
    else if c = '*' || c = '?' || c = '+' || c = '|' || c = '.' ||
            c = '^' || c = '$' || c = '{' || c = ']' then
      none
    else
      match rest with
      | '?' :: rest2 => do
        let (tail, r, k') ← parseSeq fuel rest2 k
        some (.cat (.opt (.lit c)) tail, r, k')
      | '*' :: rest2 => do
        let (tail, r, k') ← parseSeq fuel rest2 k
        some (.cat (.star [(c, c)]) tail, r, k')
      | _ => do
        let (tail, r, k') ← parseSeq fuel rest k
        some (.cat (.lit c) tail, r, k')

/-- `Regex::new` on the emitted fragment: require the `^ ... $` anchors and
parse the body, numbering capture groups from 1 (group 0 is the whole
match). -/
def parseRegex (s : String) : Option Rx :=
  let cs := s.data
  match cs with
  | '^' :: body' =>
    match body'.getLast? with
    | some '$' =>
      let body := body'.dropLast
      match parseSeq (body.length + 1) body 1 with
      | some (r, [], _) => some r
      | _ => none
    | _ => none
  | _ => none

/-- `path_utils::create_regex`: compile the route path to a matcher.
`none` models a `Regex::new` failure (which the Rust code unwraps). -/
def create_regex (route_path : String) : Option Rx :=
  parseRegex (create_regex_src route_path)

/-- Recursion core of `varOccurrences`, structurally recursive on fuel. -/
def varOccurrencesGo : Nat → List Char → List (List Char)
  | 0, _ => []
  | _ + 1, [] => []
  | fuel + 1, c :: rest =>
    if c = ':' then
      rest.takeWhile nameChar :: varOccurrencesGo fuel (rest.dropWhile nameChar)
    else
      varOccurrencesGo fuel rest

/-- The maximal run of name characters following each `:`, in order of
occurrence: the capture texts of `REGEX_VAR_SEQ.captures_iter`. -/
def varOccurrences (s : List Char) : List (List Char) :=
  varOccurrencesGo s.length s

/-! ## The route table (`Router` in `src/router/mod.rs`) -/

/-- Insert a key/value pair into an association list modelling a `HashMap`:
an existing binding of the key is overwritten, otherwise the pair is
appended. -/
def mapInsert (m : List (String × Nat)) (k : String) (v : Nat) :
    List (String × Nat) :=
  if m.any (fun p => decide (p.1 = k)) then
    m.map (fun p => if p.1 = k then (k, v) else p)
  else
    m ++ [(k, v)]

/-- Fold the enumerated variable occurrences into the `HashMap`, starting the
enumeration at `i` (models `collect::<HashMap<_, _>>()`). -/
def varMapFrom : List (List Char) → Nat → List (String × Nat) →
    List (String × Nat)
  | [], _, m => m
  | n :: rest, i, m => varMapFrom rest (i + 1) (mapInsert m (String.mk n) i)

/-- `path_utils::get_variable_info`: map each `:name` occurrence to its
occurrence index. -/
def get_variable_info (route_path : String) : List (String × Nat) :=
  varMapFrom (varOccurrences route_path.data) 0 []

/-- `HashMap::find_equiv`: look up a key. -/
def hashFind (m : List (String × Nat)) (k : String) : Option Nat :=
  (m.find? (fun p => decide (p.1 = k))).map (fun p => p.2)

/-- A `Route`: the (possibly format-extended) path, the owning method, the
opaque handler, the variable-name → capture-index map and the compiled
matcher.  `H` is the handler type. -/
structure Route (H : Type) where
  path : String
  method : Method
  handler : H
  vars : List (String × Nat)
  matcher : Rx
deriving DecidableEq

/-- A `RouteResult`: the matched route and the evaluated capture strings. -/
structure RouteResult (H : Type) where
  route : Route H
  params : List String
deriving DecidableEq

/-- `RouteResult::param`.  `none` models the two `fail!`/panic paths of the
Rust code: an unknown key, or (never reached for tables built by `add_route`)
an index beyond the params vector. -/
def RouteResult.param {H : Type} (self : RouteResult H) (key : String) :
    Option String :=
  match hashFind self.route.vars key with
  | none => none
  | some idx => self.params.get? idx

/-- `Router::match_route`: linear scan in registration order for the first
route whose method equals the request method and whose matcher matches the
path; on a hit, re-apply the matcher to build the params vector. -/
def match_route {H : Type} (routes : List (Route H)) (method : Method)
    (path : String) : Option (RouteResult H) :=
  (routes.find? (fun item =>
      decide (item.method = method) && is_match item.matcher path.data)).map
    (fun route =>
      let vec :=
        match capts route.matcher path.data with
        | some captures =>
          (List.range route.vars.length).map
            (fun pos => capturesAt captures (pos + 1))
        | none => []
      { route := route, params := vec })

/-- Rust `str::contains` for string patterns. -/
def containsSub (needle : List Char) : List Char → Bool
  | [] => needle.isEmpty
  | c :: rest => needle.isPrefixOf (c :: rest) || containsSub needle rest

/-- `FORMAT_VAR`. -/
def FORMAT_VAR : String := ":format"

/-- `HttpRouter::add_route` for `Router`: extend the pattern with the
implicit optional `format` variable unless one is declared, compile it and
append the route.  `none` models the `Regex::new(..).ok().unwrap()` panic. -/
def add_route {H : Type} (routes : List (Route H)) (method : Method)
    (path : String) (handler : H) : Option (List (Route H)) :=
  let with_format :=
    if containsSub FORMAT_VAR.data path.data then path
    else path ++ "(\\." ++ FORMAT_VAR ++ ")?"
  match create_regex with_format with
  | none => none
  | some matcher =>
    let variable_infos := get_variable_info with_format
    some (routes ++ [{ path := with_format, method := method,
                       handler := handler, vars := variable_infos,
                       matcher := matcher }])

/-! ## The router as a middleware unit -/

/-- The three-way control signal of a middleware unit. -/
inductive Action where
  | Continue
  | Halt
deriving DecidableEq, Repr

/-- A handler error: status code and message (the optional partially built
response carried by the Rust error type is not needed by the claims about
the chains). -/
structure NErr where
  status : Nat
  message : String
deriving DecidableEq, Repr

/-- `MiddlewareResult`: `Ok(Continue) | Ok(Halt) | Err(e)`. -/
abbrev MiddlewareResult := Except NErr Action

/-- The request URI, from `http::server::request`: an absolute path or any
of the other (non-path) forms, which the router ignores. -/
inductive RequestUri where
  | absolutePath (url : String)
  | other
deriving DecidableEq

/-- The data of a matched route visible to a handler through the request:
the `RouteResult` with the opaque handler reference elided (eliding it
breaks the type-level recursion between requests and handlers). -/
structure MatchData where
  path : String
  method : Method
  vars : List (String × Nat)
  params : List String
deriving DecidableEq

/-- Project a `RouteResult` to the handler-visible `MatchData`. -/
def toMatchData {H : Type} (rr : RouteResult H) : MatchData :=
  { path := rr.route.path, method := rr.route.method,
    vars := rr.route.vars, params := rr.params }

/-- The request surface consumed by the router: method, request URI and the
`route_result` slot the router fills on a hit. -/
structure Request where
  method : Method
  requestUri : RequestUri
  route_result : Option MatchData
deriving DecidableEq

/-- The response surface: status code and body. -/
structure Response where
  status : Nat
  body : String
deriving DecidableEq, Repr

/-- `http::status::Ok`. -/
def statusOk : Nat := 200

/-- The handler type of this version of the code:
`fn handle(&self, &Request, &mut Response)` — it transforms the response and
returns no control-flow value. -/
abbrev Handler := Request → Response → Response

/-- `impl Middleware for Router`: `invoke`.  On a hit it sets the response
status to `Ok`, stores the match data on the request, runs the handler
synchronously and returns `Ok(Halt)`; on a miss (or a non-path URI) it
returns `Ok(Continue)` with request and response untouched. -/
def invoke (routes : List (Route Handler)) (req : Request) (res : Response) :
    Request × Response × MiddlewareResult :=
  match req.requestUri with
  | .absolutePath url =>
    match match_route routes req.method url with
    | some route_result =>
      let res1 : Response := { res with status := statusOk }
      let req1 : Request :=
        { req with route_result := some (toMatchData route_result) }
      (req1, route_result.route.handler req1 res1, .ok .Halt)
    | none => (req, res, .ok .Continue)
  | .other => (req, res, .ok .Continue)

/-! ## The middleware chain and the error handler chain

These engines are part of this repository but their source is not under
`src/` (only the router, a middleware unit, is); they are modelled from the
specification. -/

/-- A middleware unit for the chain engine, abstracted over the response
type: it transforms the response and yields a control-flow result. -/
abbrev ChainUnit (R : Type) := R → R × MiddlewareResult

/-- Outcome of running the middleware chain. -/
inductive ChainOutcome (R : Type) where
  | halted (res : R)
  | errored (e : NErr) (res : R)
deriving DecidableEq

/-- Modelled from the spec: the middleware-chain state machine of §4.3
(`Running(i)` / `Halted` / `Errored`), instrumented with the list of indices
of the units that were invoked.  `runChainFrom units i res` runs the units in
order starting at index `i`: `Continue(r)` advances to the next unit with
`r`, `Halt(r)` stops with `Halted(r)`, `Err(e)` stops with `Errored`, and
running out of units is implicitly `Halted` with the current response. -/
def runChainFrom {R : Type} : List (ChainUnit R) → Nat → R →
    List Nat × ChainOutcome R
  | [], _, res => ([], .halted res)
  | u :: rest, i, res =>
    match u res with
    | (r, .ok .Continue) =>
      let next := runChainFrom rest (i + 1) r
      (i :: next.1, next.2)
    | (r, .ok .Halt) => ([i], .halted r)
    | (r, .error e) => ([i], .errored e r)

/-- Modelled from the spec: run the full middleware chain from its start
state `Running(0)`. -/
def runChain {R : Type} (units : List (ChainUnit R)) (res : R) :
    List Nat × ChainOutcome R :=
  runChainFrom units 0 res

/-- An error handler: receives the error and the response so far, and
returns a response together with `Continue` (defer, response unchanged) or
`Halt` (its response is final). -/
abbrev ErrHandler (R : Type) := NErr → R → R × Action

/-- Modelled from the spec: the built-in default error handler of §4.5 — it
writes the error's status code and message into the response body and
returns `Halt`.  The concrete `Response` surface is used. -/
def default_error_handler (e : NErr) (res : Response) : Response × Action :=
  ({ res with status := e.status,
              body := toString e.status ++ " " ++ e.message }, .Halt)

/-- Modelled from the spec: the error handler chain of §4.5.  Handlers run
in registration order; a handler returning `Continue` defers to the next one
with the response unchanged; if every handler returns `Continue` the
built-in default handler finishes. -/
def run_error_chain : List (ErrHandler Response) → NErr → Response →
    Response × Action
  | [], e, res => default_error_handler e res
  | h :: rest, e, res =>
    match h e res with
    | (r, .Halt) => (r, .Halt)
    | (_, .Continue) => run_error_chain rest e res

/-! ## Shape predicates on compiled matchers -/

/-- The character class of the query-string suffix `[a-zA-Z0-9%_=&-]`, as
parsed from `REGEX_PARAM_SEQ`. -/
def queryCls : CClass :=
  [('a', 'z'), ('A', 'Z'), ('0', '9'), ('%', '%'), ('_', '_'),
   ('=', '='), ('&', '&'), ('-', '-')]

/-- The character class `[,a-zA-Z0-9_-]`, as parsed from `VAR_SEQ` (the `*`
wildcard fragment). -/
def varSeqCls : CClass :=
  [(',', ','), ('a', 'z'), ('A', 'Z'), ('0', '9'), ('_', '_'), ('-', '-')]

/-- The character class `[,/a-zA-Z0-9_-]`, as parsed from
`VAR_SEQ_WITH_SLASH` (the `**` wildcard fragment). -/
def slashCls : CClass :=
  [(',', ','), ('/', '/'), ('a', 'z'), ('A', 'Z'), ('0', '9'),
   ('_', '_'), ('-', '-')]

/-- An expression that can never consume a `?` character. -/
def qfree : Rx → Bool
  | .eps => true
  | .lit c => decide (c ≠ '?')
  | .star cs => !CClass.test cs '?'
  | .grp _ r => qfree r
  | .opt r => qfree r
  | .cat a b => qfree a && qfree b

/-- The parsed form of the optional query-string suffix
`(\?[a-zA-Z0-9%_=&-]*)?` (for any capture-group number). -/
def isQueryAtom : Rx → Bool
  | .opt (.grp _ r) =>
    decide (r = .cat (.lit '?') (.cat (.star queryCls) .eps))
  | _ => false

/-- A compiled route matcher in the shape the pattern compiler emits: a
sequence of `?`-free pieces ending in the optional query-string suffix. -/
def goodShape : Rx → Bool
  | .cat a .eps => isQueryAtom a
  | .cat a (.cat b c) => qfree a && goodShape (.cat b c)
  | _ => false

/-! ## Concrete route tables and requests used by the witnesses -/

/-- The route table of the `can_match_var_routes` test. -/
def testRouterO : Option (List (Route Unit)) :=
  (add_route [] .Get "/foo/:userid" ()).bind (fun r =>
  (add_route r .Get "/bar" ()).bind (fun r =>
   add_route r .Get "/file/:format/:file" ()))

/-- The table of `can_match_var_routes`, unwrapped. -/
def testRouter : List (Route Unit) := testRouterO.getD []

/-- Two overlapping patterns, registered P1 = `/foo/:userid` first and
P2 = `/foo/*` second; both match `/foo/42`. -/
def overlapRouterO : Option (List (Route Unit)) :=
  (add_route [] .Get "/foo/:userid" ()).bind (fun r =>
   add_route r .Get "/foo/*" ())

/-- The overlapping table, unwrapped. -/
def overlapRouter : List (Route Unit) := overlapRouterO.getD []

/-- A concrete handler writing a fixed body (it returns no control-flow
value, as in the Rust `RequestHandler` trait). -/
def userHandler : Handler := fun _ res => { res with body := "User found!" }

/-- A one-route table with a real handler, for the router-as-middleware
claims. -/
def userRouterO : Option (List (Route Handler)) :=
  add_route [] .Get "/user/:userid" userHandler

/-- The handler table, unwrapped. -/
def userRouter : List (Route Handler) := userRouterO.getD []

/-- A fresh response, before any middleware ran. -/
def baseResponse : Response := { status := 404, body := "" }

/-- A request hitting `/user/:userid`. -/
def userRequest : Request :=
  { method := .Get, requestUri := .absolutePath "/user/42",
    route_result := none }

/-- A request matching no route of `userRouter`. -/
def missRequest : Request :=
  { method := .Get, requestUri := .absolutePath "/not_a_handled_path",
    route_result := none }

/-- A placeholder route used only as an `Option.getD` default. -/
def dummyRoute : Route Unit :=
  { path := "", method := .Get, handler := (), vars := [], matcher := .eps }

/-- The concrete result of resolving `/foo/42` against `overlapRouter`. -/
def overlapResult : RouteResult Unit :=
  (match_route overlapRouter .Get "/foo/42").getD ⟨dummyRoute, []⟩

/-- A placeholder route with the handler type, used only as a default. -/
def dummyHandlerRoute : Route Handler :=
  { path := "", method := .Get, handler := fun _ res => res, vars := [],
    matcher := .eps }

/-- The concrete result of resolving `/foo/42` against `testRouter`. -/
def fooResult : RouteResult Unit :=
  (match_route testRouter .Get "/foo/42").getD ⟨dummyRoute, []⟩

/-- The concrete result of resolving `/user/42` against `userRouter`. -/
def userRouteResult : RouteResult Handler :=
  (match_route userRouter .Get "/user/42").getD ⟨dummyHandlerRoute, []⟩

/-- A handler that leaves the response untouched (under the specification's
middleware contract this is a deferring, `Continue`-like handler). -/
def noopHandler : Handler := fun _ res => res

/-- A one-route table whose handler is the no-op handler. -/
def noopRouterO : Option (List (Route Handler)) :=
  add_route [] .Get "/user/:userid" noopHandler

/-- The no-op table, unwrapped. -/
def noopRouter : List (Route Handler) := noopRouterO.getD []

/-- An error handler that always defers. -/
def contErrHandler : ErrHandler Response := fun _ res => (res, .Continue)

/-- The error raised by the custom error handler example. -/
def teapotErr : NErr := { status := 418, message := "Teapot activated!" }

/-- Chain unit A: appends `A` to the body and continues. -/
def unitA : ChainUnit Response :=
  fun r => ({ r with body := r.body ++ "A" }, .ok .Continue)

/-- Chain unit B: appends `B` to the body and halts. -/
def unitB : ChainUnit Response :=
  fun r => ({ r with body := r.body ++ "B" }, .ok .Halt)

/-- Chain unit C: appends `C` to the body and continues. -/
def unitC : ChainUnit Response :=
  fun r => ({ r with body := r.body ++ "C" }, .ok .Continue)

/-- The one-route table registering only `/foo/:userid`. -/
def fooOnlyRouter : List (Route Unit) :=
  (add_route [] .Get "/foo/:userid" ()).getD []

/-! ## Metatheory of the matcher -/

theorem starSplits_mem {cs : CClass} :
    ∀ {s t r : List Char}, (t, r) ∈ starSplits cs s ↔
      t ++ r = s ∧ t.all (CClass.test cs) = true := by
  intro s
  induction s with
  | nil =>
    intro t r
    constructor
    · intro h
      simp [starSplits] at h
      simp [h.1, h.2]
    · intro h
      have ht : t = [] := by
        cases t with
        | nil => rfl
        | cons x xs => simp at h
      subst ht
      simp_all [starSplits]
  | cons c s ih =>
    intro t r
    constructor
    · intro h
      by_cases hc : CClass.test cs c
      · simp only [starSplits, hc, if_pos, List.mem_append, List.mem_map,
          List.mem_singleton] at h
        rcases h with ⟨⟨t', r'⟩, hmem, heq⟩ | h
        · obtain ⟨h1, h2⟩ := (ih (t := t') (r := r')).mp hmem
          cases heq
          simp_all
        · cases h
          simp
      · simp only [starSplits, hc] at h
        simp at h
        cases h.1
        cases h.2
        simp
    · rintro ⟨hsplit, hall⟩
      cases t with
      | nil =>
        cases hsplit
        by_cases hc : CClass.test cs c <;> simp [starSplits, hc]
      | cons x xs =>
        simp only [List.cons_append, List.cons.injEq] at hsplit
        obtain ⟨rfl, h2⟩ := hsplit
        simp only [List.all_cons, Bool.and_eq_true] at hall
        simp only [starSplits, hall.1, if_pos, List.mem_append, List.mem_map]
        exact Or.inl ⟨(xs, r), ih.mpr ⟨h2, hall.2⟩, rfl⟩

theorem msmatch_sound :
    ∀ (rx : Rx) {s t r : List Char} {caps : Capts},
      (t, r, caps) ∈ msmatch rx s → t ++ r = s ∧ Matches rx t := by
  intro rx
  induction rx with
  | eps =>
    intro s t r caps h
    simp [msmatch] at h
    obtain ⟨rfl, rfl, rfl⟩ := h
    exact ⟨rfl, .eps⟩
  | lit c =>
    intro s t r caps h
    cases s with
    | nil => simp [msmatch] at h
    | cons x s' =>
      simp only [msmatch] at h
      by_cases hx : x = c
      · subst hx
        simp at h
        obtain ⟨rfl, rfl, rfl⟩ := h
        exact ⟨rfl, .lit x⟩
      · simp [hx] at h
  | star cs =>
    intro s t r caps h
    simp only [msmatch, List.mem_map] at h
    obtain ⟨⟨t', r'⟩, hmem, heq⟩ := h
    cases heq
    obtain ⟨h1, h2⟩ := starSplits_mem.mp hmem
    exact ⟨h1, .star h2⟩
  | grp i rx ih =>
    intro s t r caps h
    simp only [msmatch, List.mem_map] at h
    obtain ⟨⟨t', r', caps'⟩, hmem, heq⟩ := h
    cases heq
    obtain ⟨h1, h2⟩ := ih hmem
    exact ⟨h1, .grp h2⟩
  | opt rx ih =>
    intro s t r caps h
    simp only [msmatch, List.mem_append, List.mem_singleton] at h
    rcases h with h | h
    · obtain ⟨h1, h2⟩ := ih h
      exact ⟨h1, .optSome h2⟩
    · cases h
      exact ⟨rfl, .optNone⟩
  | cat a b iha ihb =>
    intro s t r caps h
    simp only [msmatch, List.mem_flatMap, List.mem_map] at h
    obtain ⟨⟨t1, r1, caps1⟩, hmem1, ⟨t2, r2, caps2⟩, hmem2, heq⟩ := h
    cases heq
    obtain ⟨h1, h2⟩ := iha hmem1
    obtain ⟨h3, h4⟩ := ihb hmem2
    subst h1 h3
    exact ⟨by simp, .cat h2 h4⟩

theorem msmatch_complete {rx : Rx} {t : List Char} (h : Matches rx t) :
    ∀ u : List Char, ∃ caps : Capts, (t, u, caps) ∈ msmatch rx (t ++ u) := by
  induction h with
  | eps => intro u; exact ⟨[], by simp [msmatch]⟩
  | lit c => intro u; exact ⟨[], by simp [msmatch]⟩
  | star hall =>
    intro u
    refine ⟨[], ?_⟩
    simp only [msmatch, List.mem_map]
    exact ⟨(_, u), starSplits_mem.mpr ⟨rfl, hall⟩, rfl⟩
  | @grp i rxg tg hm ih =>
    intro u
    obtain ⟨caps, hc⟩ := ih u
    refine ⟨(i, tg) :: caps, ?_⟩
    simp only [msmatch, List.mem_map]
    exact ⟨(tg, u, caps), hc, rfl⟩
  | optSome hm ih =>
    intro u
    obtain ⟨caps, hc⟩ := ih u
    exact ⟨caps, by simp only [msmatch, List.mem_append]; exact Or.inl hc⟩
  | optNone =>
    intro u
    exact ⟨[], by simp [msmatch]⟩
  | cat hma hmb iha ihb =>
    next a b t1 t2 =>
    intro u
    obtain ⟨caps2, hc2⟩ := ihb u
    obtain ⟨caps1, hc1⟩ := iha (t2 ++ u)
    refine ⟨caps1 ++ caps2, ?_⟩
    simp only [msmatch, List.mem_flatMap, List.mem_map]
    refine ⟨(t1, t2 ++ u, caps1), by rw [List.append_assoc]; exact hc1,
            (t2, u, caps2), hc2, by simp⟩

theorem is_match_iff_matches {rx : Rx} {s : List Char} :
    is_match rx s = true ↔ Matches rx s := by
  constructor
  · intro h
    simp only [is_match, List.any_eq_true] at h
    obtain ⟨⟨t, r, caps⟩, hmem, hr⟩ := h
    simp only [List.isEmpty_iff] at hr
    subst hr
    obtain ⟨h1, h2⟩ := msmatch_sound rx hmem
    simp only [List.append_nil] at h1
    subst h1
    exact h2
  · intro h
    obtain ⟨caps, hc⟩ := msmatch_complete h []
    simp only [List.append_nil] at hc
    simp only [is_match, List.any_eq_true]
    exact ⟨(s, [], caps), hc, rfl⟩

/-! ## Inversion lemmas for the matching relation -/

theorem matches_eps_iff {t : List Char} : Matches .eps t ↔ t = [] := by
  constructor
  · intro h; cases h; rfl
  · rintro rfl; exact .eps

theorem matches_lit_iff {c : Char} {t : List Char} :
    Matches (.lit c) t ↔ t = [c] := by
  constructor
  · intro h; cases h; rfl
  · rintro rfl; exact .lit c

theorem matches_star_iff {cs : CClass} {t : List Char} :
    Matches (.star cs) t ↔ t.all (CClass.test cs) = true := by
  constructor
  · intro h; cases h; assumption
  · exact .star

theorem matches_grp_iff {i : Nat} {r : Rx} {t : List Char} :
    Matches (.grp i r) t ↔ Matches r t := by
  constructor
  · intro h; cases h; assumption
  · exact .grp

theorem matches_opt_iff {r : Rx} {t : List Char} :
    Matches (.opt r) t ↔ Matches r t ∨ t = [] := by
  constructor
  · intro h
    cases h with
    | optSome h => exact Or.inl h
    | optNone => exact Or.inr rfl
  · rintro (h | rfl)
    · exact .optSome h
    · exact .optNone

theorem matches_cat_iff {a b : Rx} {s : List Char} :
    Matches (.cat a b) s ↔
      ∃ t u, Matches a t ∧ Matches b u ∧ s = t ++ u := by
  constructor
  · intro h
    cases h with
    | cat ha hb => exact ⟨_, _, ha, hb, rfl⟩
  · rintro ⟨t, u, ha, hb, rfl⟩
    exact .cat ha hb

theorem qfree_no_qmark {rx : Rx} {t : List Char} (hq : qfree rx = true)
    (hm : Matches rx t) : '?' ∉ t := by
  induction hm with
  | eps => simp
  | lit c =>
    simp only [qfree, decide_eq_true_eq] at hq
    simp [hq]
    intro h
    exact hq h.symm
  | @star cs tt hall =>
    intro hmem
    simp only [qfree, Bool.not_eq_true'] at hq
    have := List.all_eq_true.mp hall _ hmem
    rw [hq] at this
    exact Bool.false_ne_true this
  | grp hm ih => exact ih hq
  | optSome hm ih => exact ih hq
  | optNone => simp
  | cat hma hmb iha ihb =>
    simp only [qfree, Bool.and_eq_true] at hq
    intro hmem
    rcases List.mem_append.mp hmem with h | h
    · exact iha hq.1 h
    · exact ihb hq.2 h

theorem split_at_qmark {t u p q : List Char} (heq : t ++ u = p ++ '?' :: q)
    (ht : '?' ∉ t) (hp : '?' ∉ p) :
    ∃ m, p = t ++ m ∧ u = m ++ '?' :: q := by
  rcases List.append_eq_append_iff.mp heq with ⟨m, hm1, hm2⟩ | ⟨m, hm1, hm2⟩
  · exact ⟨m, hm1, hm2⟩
  · cases m with
    | nil =>
      simp only [List.append_nil] at hm1
      subst hm1
      exact ⟨[], by simp, by simpa using hm2.symm⟩
    | cons x m' =>
      exfalso
      have hx : x = '?' := by
        have := hm2
        simp only [List.cons_append] at this
        exact (List.cons.injEq _ _ _ _ ▸ this : _ ∧ _).1.symm
      subst hx
      subst hm1
      exact ht (List.mem_append.mpr (Or.inr (List.mem_cons_self _ _)))

theorem isQueryAtom_eq {a : Rx} (h : isQueryAtom a = true) :
    ∃ k, a = .opt (.grp k (.cat (.lit '?') (.cat (.star queryCls) .eps))) := by
  cases a with
  | opt r =>
    cases r with
    | grp k r' =>
      simp only [isQueryAtom, decide_eq_true_eq] at h
      exact ⟨k, by rw [h]⟩
    | eps => simp [isQueryAtom] at h
    | lit c => simp [isQueryAtom] at h
    | star cs => simp [isQueryAtom] at h
    | opt r' => simp [isQueryAtom] at h
    | cat x y => simp [isQueryAtom] at h
  | eps => simp [isQueryAtom] at h
  | lit c => simp [isQueryAtom] at h
  | star cs => simp [isQueryAtom] at h
  | grp k r => simp [isQueryAtom] at h
  | cat x y => simp [isQueryAtom] at h

theorem goodShape_qmark_iff :
    ∀ {rx : Rx}, goodShape rx = true →
    ∀ {p q : List Char}, '?' ∉ p → q.all (CClass.test queryCls) = true →
      (Matches rx (p ++ '?' :: q) ↔ Matches rx p) := by
  intro rx
  induction rx with
  | eps => intro hg; simp [goodShape] at hg
  | lit c => intro hg; simp [goodShape] at hg
  | star cs => intro hg; simp [goodShape] at hg
  | grp k r ih => intro hg; simp [goodShape] at hg
  | opt r ih => intro hg; simp [goodShape] at hg
  | cat a b iha ihb =>
    intro hg p q hp hq
    cases b with
    | eps =>
      have hqa : isQueryAtom a = true := by simpa [goodShape] using hg
      obtain ⟨k, rfl⟩ := isQueryAtom_eq hqa
      constructor
      · intro h
        obtain ⟨t, u, hA, hE, heq⟩ := matches_cat_iff.mp h
        have hu : u = [] := matches_eps_iff.mp hE
        subst hu
        simp only [List.append_nil] at heq
        subst heq
        rcases matches_opt_iff.mp hA with hA' | hA'
        · have hQ := matches_grp_iff.mp hA'
          obtain ⟨t1, u1, h1, h2, heq2⟩ := matches_cat_iff.mp hQ
          have ht1 : t1 = ['?'] := matches_lit_iff.mp h1
          subst ht1
          have hpnil : p = [] := by
            cases p with
            | nil => rfl
            | cons x p' =>
              exfalso
              simp only [List.cons_append, List.cons.injEq] at heq2
              exact hp (heq2.1 ▸ List.mem_cons_self _ _)
          subst hpnil
          exact matches_cat_iff.mpr ⟨[], [], .optNone, .eps, rfl⟩
        · exact absurd hA' (by simp)
      · intro h
        obtain ⟨t, u, hA, hE, heq⟩ := matches_cat_iff.mp h
        have hu : u = [] := matches_eps_iff.mp hE
        subst hu
        simp only [List.append_nil] at heq
        subst heq
        have hpnil : p = [] := by
          rcases matches_opt_iff.mp hA with hA' | hA'
          · exfalso
            have hQ := matches_grp_iff.mp hA'
            obtain ⟨t1, u1, h1, h2, heq2⟩ := matches_cat_iff.mp hQ
            have ht1 : t1 = ['?'] := matches_lit_iff.mp h1
            subst ht1
            exact hp (heq2 ▸ List.mem_append.mpr
              (Or.inl (List.mem_cons_self _ _)))
          · exact hA'
        subst hpnil
        refine matches_cat_iff.mpr ⟨'?' :: q, [], ?_, .eps, by simp⟩
        refine .optSome (.grp (matches_cat_iff.mpr
          ⟨['?'], q, .lit '?', ?_, rfl⟩))
        exact matches_cat_iff.mpr ⟨q, [], .star hq, .eps, by simp⟩
    | cat b1 b2 =>
      have hg' : qfree a = true ∧ goodShape (.cat b1 b2) = true := by
        simpa [goodShape, Bool.and_eq_true] using hg
      constructor
      · intro h
        obtain ⟨t, u, hA, hB, heq⟩ := matches_cat_iff.mp h
        have ht : '?' ∉ t := qfree_no_qmark hg'.1 hA
        obtain ⟨m, hm1, hm2⟩ := split_at_qmark heq.symm ht hp
        have hmq : '?' ∉ m := fun hmem =>
          hp (hm1 ▸ List.mem_append.mpr (Or.inr hmem))
        subst hm2
        have hBm := (ihb hg'.2 hmq hq).mp hB
        exact hm1 ▸ matches_cat_iff.mpr ⟨t, m, hA, hBm, rfl⟩
      · intro h
        obtain ⟨t, u, hA, hB, heq⟩ := matches_cat_iff.mp h
        have hu : '?' ∉ u := fun hmem =>
          hp (heq ▸ List.mem_append.mpr (Or.inr hmem))
        have hBu := (ihb hg'.2 hu hq).mpr hB
        refine matches_cat_iff.mpr ⟨t, u ++ '?' :: q, hA, hBu, ?_⟩
        rw [heq, List.append_assoc]
    | lit c => simp [goodShape] at hg
    | star cs => simp [goodShape] at hg
    | grp k r => simp [goodShape] at hg
    | opt r => simp [goodShape] at hg

/-! ## First-match characterisation of the linear scan -/

theorem find?_first {α : Type} {p : α → Bool} :
    ∀ {l : List α} {x : α}, l.find? p = some x →
      ∃ i : Fin l.length, l.get i = x ∧ p x = true ∧
        ∀ j : Fin l.length, (j : Nat) < (i : Nat) → p (l.get j) = false := by
  intro l
  induction l with
  | nil => intro x h; simp [List.find?] at h
  | cons a l ih =>
    intro x h
    by_cases hpa : p a = true
    · rw [List.find?_cons_of_pos _ hpa] at h
      cases h
      refine ⟨⟨0, by simp⟩, rfl, hpa, ?_⟩
      intro j hj
      simp at hj
    · rw [List.find?_cons_of_neg _ hpa] at h
      obtain ⟨i, h1, h2, h3⟩ := ih h
      refine ⟨i.succ, by simpa using h1, h2, ?_⟩
      intro j hj
      cases j with
      | mk jv hjv =>
        cases jv with
        | zero => simpa using Bool.not_eq_true _ ▸ hpa
        | succ jj =>
          have hjj : jj < l.length := by
            simp only [List.length_cons] at hjv
            omega
          have := h3 ⟨jj, hjj⟩ (by simpa using hj)
          simpa using this

theorem find?_congr {α : Type} {p q : α → Bool} :
    ∀ {l : List α}, (∀ x ∈ l, p x = q x) → l.find? p = l.find? q := by
  intro l
  induction l with
  | nil => intro h; rfl
  | cons a l ih =>
    intro h
    have ha := h a (List.mem_cons_self _ _)
    by_cases hpa : p a = true
    · rw [List.find?_cons_of_pos _ hpa, List.find?_cons_of_pos _ (ha ▸ hpa)]
    · rw [List.find?_cons_of_neg _ hpa, List.find?_cons_of_neg _ (ha ▸ hpa)]
      exact ih (fun x hx => h x (List.mem_cons_of_mem _ hx))

/-! ## Query-string irrelevance for well-shaped matchers -/

theorem is_match_qmark {rx : Rx} (hg : goodShape rx = true)
    {p q : List Char} (hp : '?' ∉ p)
    (hq : q.all (CClass.test queryCls) = true) :
    is_match rx (p ++ '?' :: q) = is_match rx p := by
  have hiff : is_match rx (p ++ '?' :: q) = true ↔ is_match rx p = true := by
    rw [is_match_iff_matches, is_match_iff_matches]
    exact goodShape_qmark_iff hg hp hq
  cases h1 : is_match rx (p ++ '?' :: q) <;>
    cases h2 : is_match rx p <;> simp_all

/-! ## Claim theorems -/

/-- A resolved `match_route`, projected to its route, is exactly the linear
`find?` scan over the table. -/
theorem match_route_route_eq_find {H : Type} (T : List (Route H))
    (m : Method) (path : String) :
    (match_route T m path).map RouteResult.route =
      T.find? (fun item =>
        decide (item.method = m) && is_match item.matcher path.data) := by
  unfold match_route
  rw [Option.map_map]
  cases h : T.find? (fun item =>
      decide (item.method = m) && is_match item.matcher path.data) <;> rfl

/-- C1: `match_route` returns the first route in registration order whose
method equals the request method and whose compiled matcher matches the
path (so with two overlapping patterns registered P1 then P2, a path
matching both resolves to P1); and whenever some route matches, a result is
returned. -/
theorem match_route_first_in_order {H : Type} (T : List (Route H))
    (m : Method) (path : String) :
    (∀ rr : RouteResult H, match_route T m path = some rr →
      ∃ i : Fin T.length,
        rr.route = T.get i ∧
        (T.get i).method = m ∧
        is_match (T.get i).matcher path.data = true ∧
        ∀ j : Fin T.length, (j : Nat) < (i : Nat) →
          ¬((T.get j).method = m ∧
            is_match (T.get j).matcher path.data = true)) ∧
    ((∃ r ∈ T, r.method = m ∧ is_match r.matcher path.data = true) →
      (match_route T m path).isSome = true) := by
  constructor
  · intro rr h
    unfold match_route at h
    rw [Option.map_eq_some'] at h
    obtain ⟨route, hf, hmk⟩ := h
    obtain ⟨i, h1, h2, h3⟩ := find?_first hf
    have hr : rr.route = route := by rw [← hmk]
    rw [← h1] at h2
    simp only [Bool.and_eq_true, decide_eq_true_eq] at h2
    refine ⟨i, by rw [hr, h1], h2.1, h2.2, ?_⟩
    intro j hj hcon
    have hfalse := h3 j hj
    rw [Bool.and_eq_false_iff] at hfalse
    rcases hfalse with hfalse | hfalse
    · rw [decide_eq_false_iff_not] at hfalse
      exact hfalse hcon.1
    · rw [hcon.2] at hfalse
      simp at hfalse
  · rintro ⟨r, hrmem, hm, hmt⟩
    unfold match_route
    rw [Option.isSome_map']
    exact List.find?_isSome.mpr ⟨r, hrmem, by simp [hm, hmt]⟩

/-- Witness for C1 on the overlapping table `overlapRouter`
(P1 = `/foo/:userid` registered before P2 = `/foo/*`, both matching
`/foo/42`): the match resolves to the first route, P1. -/
theorem match_route_first_in_order_witness :
    (∃ i : Fin overlapRouter.length,
      overlapResult.route = overlapRouter.get i ∧
      (overlapRouter.get i).method = .Get ∧
      is_match (overlapRouter.get i).matcher "/foo/42".data = true ∧
      ∀ j : Fin overlapRouter.length, (j : Nat) < (i : Nat) →
        ¬((overlapRouter.get j).method = .Get ∧
          is_match (overlapRouter.get j).matcher "/foo/42".data = true)) ∧
    (match_route overlapRouter .Get "/foo/42").isSome = true ∧
    (match_route overlapRouter .Get "/foo/42").map
      (fun rr => rr.route.path) = some "/foo/:userid(\\.:format)?" :=
  ⟨(match_route_first_in_order overlapRouter .Get "/foo/42").1
      overlapResult (by decide),
   (match_route_first_in_order overlapRouter .Get "/foo/42").2 (by decide),
   by decide⟩

/-- C6 (counterexample): appending the query string `a.b` — a legal query
containing a character outside the compiled query class — changes the
matching outcome: `/bar` resolves against the test table, `/bar?a.b` does
not. -/
theorem query_suffix_changes_match_cex :
    (match_route testRouter .Get "/bar").isSome = true ∧
    (match_route testRouter .Get ("/bar" ++ "?" ++ "a.b")).isSome = false := by
  constructor <;> decide

/-- C6 (amended): for query strings over the compiled query character class
`[a-zA-Z0-9%_=&-]`, appending `?query` to a `?`-free path never changes
which route `match_route` finds, for any table whose matchers have the
compiler's emitted shape. -/
theorem match_route_query_suffix_irrelevant {H : Type}
    (T : List (Route H)) (m : Method) (p q : String)
    (hT : ∀ r ∈ T, goodShape r.matcher = true)
    (hp : '?' ∉ p.data)
    (hq : q.data.all (CClass.test queryCls) = true) :
    (match_route T m (p ++ "?" ++ q)).map RouteResult.route =
      (match_route T m p).map RouteResult.route := by
  have hd : (p ++ "?" ++ q).data = p.data ++ '?' :: q.data := by
    rw [String.data_append, String.data_append]
    simp
  rw [match_route_route_eq_find, match_route_route_eq_find, hd]
  exact find?_congr (fun r hr => by rw [is_match_qmark (hT r hr) hp hq])

/-- Witness for the amended C6 on the test table. -/
theorem match_route_query_suffix_irrelevant_witness :
    (match_route testRouter .Get ("/foo/42" ++ "?" ++ "x=1")).map
        RouteResult.route =
      (match_route testRouter .Get "/foo/42").map RouteResult.route :=
  match_route_query_suffix_irrelevant testRouter .Get "/foo/42" "x=1"
    (by decide) (by decide) (by decide)

/-- C3: a lone `*` compiles to the non-slash fragment `[,a-zA-Z0-9_-]*`
(one path segment's worth of non-slash characters): it matches within one
segment, never across `/` (shown both on a concrete two-segment path and in
general for the compiled fragment), requires no variable name and captures
nothing; `**` compiles to `[,/a-zA-Z0-9_-]*` and matches across multiple
segments, including zero segments. -/
theorem wildcard_semantics :
    create_regex_src "foo/*/bar" =
      "^foo/[,a-zA-Z0-9_-]*/bar(\\?[a-zA-Z0-9%_=&-]*)?$" ∧
    (create_regex "foo/*/bar").map
      (fun r => is_match r "foo/4711/bar".data) = some true ∧
    (create_regex "foo/*/bar").map
      (fun r => is_match r "foo/4711/4712/bar".data) = some false ∧
    (∀ t : List Char, is_match (.star varSeqCls) t = true → '/' ∉ t) ∧
    get_variable_info "foo/*/bar" = [] ∧
    (create_regex "foo/*/bar").map
      (fun r => capts r "foo/4711/bar".data) = some (some []) ∧
    create_regex_src "foo/**/bar" =
      "^foo/[,/a-zA-Z0-9_-]*/bar(\\?[a-zA-Z0-9%_=&-]*)?$" ∧
    (create_regex "foo/**/bar").map
      (fun r => is_match r "foo/4711/4712/bar".data) = some true ∧
    (create_regex "foo/**/bar").map
      (fun r => is_match r "foo//bar".data) = some true := by
  refine ⟨by decide, by decide, by decide, ?_, by decide, by decide,
          by decide, by decide, by decide⟩
  intro t h hmem
  have hall := matches_star_iff.mp (is_match_iff_matches.mp h)
  have hc := List.all_eq_true.mp hall _ hmem
  have hf : CClass.test varSeqCls '/' = false := by decide
  rw [hf] at hc
  exact Bool.false_ne_true hc

/-- Witness for C3: the single-segment wildcard fragment matching `47`
indeed contains no slash. -/
theorem wildcard_semantics_witness :
    is_match (.star varSeqCls) ['4', '7'] = true ∧ '/' ∉ ['4', '7'] :=
  ⟨by decide, wildcard_semantics.2.2.2.1 ['4', '7'] (by decide)⟩

/-- C7: the variable capture class accepts commas and percent escapes:
`/foo/123,456` and `/foo/John%20Doe` match the `/foo/:userid` route with
the `userid` variable captured whole. -/
theorem var_capture_commas_percent :
    (match_route testRouter .Get "/foo/123,456").map
      (fun rr => rr.param "userid") = some (some "123,456") ∧
    (match_route testRouter .Get "/foo/John%20Doe").map
      (fun rr => rr.param "userid") = some (some "John%20Doe") := by
  constructor <;> decide

/-- C10: `RouteResult::param` with a key that is not a declared variable
fails (`none` models the `fail!` panic, never an empty default), and with a
key declared at index `i` it returns the captured string stored at index
`i` of the params vector. -/
theorem param_panics_or_indexes {H : Type} (rr : RouteResult H)
    (k : String) :
    (hashFind rr.route.vars k = none → rr.param k = none) ∧
    ∀ (i : Nat) (hi : i < rr.params.length),
      hashFind rr.route.vars k = some i →
      rr.param k = some (rr.params.get ⟨i, hi⟩) := by
  constructor
  · intro h
    unfold RouteResult.param
    rw [h]
  · intro i hi h
    unfold RouteResult.param
    rw [h]
    exact List.get?_eq_get hi

/-- Witness for C10 on the `/foo/42` result: an undeclared key aborts, the
declared `userid` key returns the stored capture. -/
theorem param_panics_or_indexes_witness :
    fooResult.param "nope" = none ∧
    fooResult.param "userid" = some (fooResult.params.get ⟨0, by decide⟩) :=
  ⟨(param_panics_or_indexes fooResult "nope").1 (by decide),
   (param_panics_or_indexes fooResult "userid").2 0 (by decide) (by decide)⟩

/-- C8: on a request whose method/path matches no registered route, the
router's `invoke` returns `Ok(Continue)` with the request and the response
both untouched. -/
theorem invoke_miss_continues (routes : List (Route Handler))
    (req : Request) (res : Response) (url : String)
    (hu : req.requestUri = .absolutePath url)
    (hm : match_route routes req.method url = none) :
    invoke routes req res = (req, res, Except.ok Action.Continue) := by
  simp [invoke, hu, hm]

/-- Witness for C8: `/not_a_handled_path` misses `userRouter` and falls
through unchanged. -/
theorem invoke_miss_continues_witness :
    invoke userRouter missRequest baseResponse =
      (missRequest, baseResponse, Except.ok Action.Continue) :=
  invoke_miss_continues userRouter missRequest baseResponse
    "/not_a_handled_path" rfl (by rfl)

/-- C2 (amended): on a hit, `invoke` records the match data on the request,
sets the response status to the `Ok` baseline, synchronously runs the
matched handler on the updated request/response, and then returns
`Ok(Halt)` unconditionally — the handler returns no control-flow value in
this code, so nothing of it is propagated. -/
theorem invoke_hit_halts (routes : List (Route Handler)) (req : Request)
    (res : Response) (url : String) (rr : RouteResult Handler)
    (hu : req.requestUri = .absolutePath url)
    (hm : match_route routes req.method url = some rr) :
    invoke routes req res =
      ({ req with route_result := some (toMatchData rr) },
       rr.route.handler { req with route_result := some (toMatchData rr) }
         { res with status := statusOk },
       Except.ok Action.Halt) := by
  simp [invoke, hu, hm]

/-- Witness for the amended C2 on `userRouter` and `/user/42`. -/
theorem invoke_hit_halts_witness :
    invoke userRouter userRequest baseResponse =
      ({ userRequest with route_result := some (toMatchData userRouteResult) },
       userRouteResult.route.handler
         { userRequest with route_result := some (toMatchData userRouteResult) }
         { baseResponse with status := statusOk },
       Except.ok Action.Halt) :=
  invoke_hit_halts userRouter userRequest baseResponse "/user/42"
    userRouteResult rfl (by rfl)

/-- C2 (counterexample): the control-flow result of `invoke` on a hit is
`Ok(Halt)` regardless of the handler — here both for a handler that writes
a body and for the no-op (deferring) handler — so it is not a propagation
of any handler-produced result, and in particular is never `Continue` on a
hit. -/
theorem invoke_hit_result_independent_of_handler_cex :
    (invoke userRouter userRequest baseResponse).2.2 =
      Except.ok Action.Halt ∧
    (invoke noopRouter userRequest baseResponse).2.2 =
      Except.ok Action.Halt ∧
    Except.ok Action.Halt ≠ (Except.ok Action.Continue : MiddlewareResult) := by
  refine ⟨by rfl, by rfl, fun h => absurd (Except.ok.inj h) (by decide)⟩

/-- C5: the error handler chain runs the registered handlers in order and
always terminates in `Halt`; if every registered handler returns
`Continue`, the built-in default handler — which writes the error's status
code and message into the response body and returns `Halt` — produces the
final response. -/
theorem error_chain_always_halts (hs : List (ErrHandler Response))
    (e : NErr) (res : Response) :
    (run_error_chain hs e res).2 = Action.Halt ∧
    ((∀ h ∈ hs, (h e res).2 = Action.Continue) →
      run_error_chain hs e res = default_error_handler e res) := by
  induction hs with
  | nil => exact ⟨rfl, fun _ => rfl⟩
  | cons h rest ih =>
    constructor
    · show (run_error_chain (h :: rest) e res).2 = Action.Halt
      unfold run_error_chain
      cases hh : h e res with
      | mk r a =>
        cases a with
        | Halt => rfl
        | Continue => exact ih.1
    · intro hall
      have hh := hall h (List.mem_cons_self _ _)
      unfold run_error_chain
      cases hhe : h e res with
      | mk r a =>
        rw [hhe] at hh
        simp only at hh
        subst hh
        exact ih.2 (fun h' hm => hall h' (List.mem_cons_of_mem _ hm))

/-- Witness for C5: a single always-deferring handler falls through to the
built-in default handler, and the chain result is `Halt`. -/
theorem error_chain_always_halts_witness :
    (run_error_chain [contErrHandler] teapotErr baseResponse).2 =
      Action.Halt ∧
    run_error_chain [contErrHandler] teapotErr baseResponse =
      default_error_handler teapotErr baseResponse :=
  ⟨(error_chain_always_halts [contErrHandler] teapotErr baseResponse).1,
   (error_chain_always_halts [contErrHandler] teapotErr baseResponse).2
     (by decide)⟩

/-- C9: once a unit returns `Halt` the chain enters the halted state with
that unit's response and no later unit is executed (the result does not
depend on the remaining units at all); in particular for the chain
`[A → Continue, B → Halt, C]` the executed trace is `[0, 1]` — A and B ran,
C never did — and the final response is B's. -/
theorem chain_halt_stops {R : Type} :
    (∀ (u : ChainUnit R) (post : List (ChainUnit R)) (i : Nat) (res r : R),
      u res = (r, Except.ok Action.Halt) →
      runChainFrom (u :: post) i res = ([i], ChainOutcome.halted r)) ∧
    (∀ (A B C : ChainUnit R) (res r1 r2 : R),
      A res = (r1, Except.ok Action.Continue) →
      B r1 = (r2, Except.ok Action.Halt) →
      runChain [A, B, C] res = ([0, 1], ChainOutcome.halted r2)) := by
  constructor
  · intro u post i res r hu
    unfold runChainFrom
    rw [hu]
  · intro A B C res r1 r2 hA hB
    unfold runChain runChainFrom
    rw [hA]
    simp only
    unfold runChainFrom
    rw [hB]

/-- Witness for C9 with concrete units writing to the response body: the
trace is `[0, 1]` and the final body is the one B produced. -/
theorem chain_halt_stops_witness :
    runChain [unitA, unitB, unitC] baseResponse =
      ([0, 1], ChainOutcome.halted { baseResponse with body := "AB" }) :=
  (@chain_halt_stops Response).2 unitA unitB unitC baseResponse
    { baseResponse with body := "A" } { baseResponse with body := "AB" }
    (by rfl) (by rfl)

/-! ## The automatic `format` variable (C4) -/

theorem varOccurrences_nil : varOccurrences [] = [] := rfl

theorem varOccurrencesGo_fuel :
    ∀ (f1 : Nat) (s : List Char) (f2 : Nat), s.length ≤ f1 → s.length ≤ f2 →
      varOccurrencesGo f1 s = varOccurrencesGo f2 s := by
  intro f1
  induction f1 with
  | zero =>
    intro s f2 h1 h2
    have hs : s = [] := List.length_eq_zero.mp (Nat.le_zero.mp h1)
    subst hs
    cases f2 <;> rfl
  | succ f1 ih =>
    intro s f2 h1 h2
    cases s with
    | nil => cases f2 <;> rfl
    | cons c rest =>
      cases f2 with
      | zero => simp at h2
      | succ f2' =>
        simp only [List.length_cons, Nat.succ_le_succ_iff] at h1 h2
        show varOccurrencesGo (f1 + 1) (c :: rest) =
          varOccurrencesGo (f2' + 1) (c :: rest)
        unfold varOccurrencesGo
        by_cases hc : c = ':'
        · simp only [hc, if_pos]
          have hd := (List.dropWhile_suffix (l := rest) nameChar).length_le
          rw [ih (rest.dropWhile nameChar) f2' (le_trans hd h1)
              (le_trans hd h2)]
        · simp only [hc, if_neg, ite_false]
          exact ih rest f2' h1 h2

theorem varOccurrences_cons (c : Char) (rest : List Char) :
    varOccurrences (c :: rest) =
      if c = ':' then
        rest.takeWhile nameChar ::
          varOccurrences (rest.dropWhile nameChar)
      else
        varOccurrences rest := by
  show varOccurrencesGo ((c :: rest).length) (c :: rest) = _
  simp only [List.length_cons]
  unfold varOccurrencesGo
  by_cases hc : c = ':'
  · simp only [hc, if_pos]
    congr 1
    exact varOccurrencesGo_fuel rest.length _ _
      (List.dropWhile_suffix nameChar).length_le le_rfl
  · simp only [hc, ite_false]
    rfl

theorem takeWhile_append_nohead (p : Char → Bool) (b0 : Char)
    (hb : p b0 = false) :
    ∀ (a b : List Char), (a ++ b0 :: b).takeWhile p = a.takeWhile p := by
  intro a b
  induction a with
  | nil => simp [List.takeWhile_cons, hb]
  | cons x a' ih =>
    simp only [List.cons_append, List.takeWhile_cons]
    cases hx : p x <;> simp [ih]

theorem dropWhile_append_nohead (p : Char → Bool) (b0 : Char)
    (hb : p b0 = false) :
    ∀ (a b : List Char),
      (a ++ b0 :: b).dropWhile p = a.dropWhile p ++ b0 :: b := by
  intro a b
  induction a with
  | nil => simp [List.dropWhile_cons, hb]
  | cons x a' ih =>
    simp only [List.cons_append, List.dropWhile_cons]
    cases hx : p x <;> simp [ih]

theorem varOccurrences_append_paren :
    ∀ (n : Nat) (a : List Char), a.length ≤ n → ∀ b : List Char,
      varOccurrences (a ++ '(' :: b) =
        varOccurrences a ++ varOccurrences ('(' :: b) := by
  intro n
  induction n with
  | zero =>
    intro a ha b
    have hs : a = [] := List.length_eq_zero.mp (Nat.le_zero.mp ha)
    subst hs
    simp [varOccurrences_cons, varOccurrences_nil]
  | succ n ih =>
    intro a ha b
    cases a with
    | nil => simp [varOccurrences_cons, varOccurrences_nil]
    | cons c rest =>
      simp only [List.length_cons, Nat.succ_le_succ_iff] at ha
      rw [List.cons_append, varOccurrences_cons, varOccurrences_cons]
      by_cases hc : c = ':'
      · simp only [hc, if_pos]
        rw [takeWhile_append_nohead nameChar '(' (by decide),
            dropWhile_append_nohead nameChar '(' (by decide),
            ih (rest.dropWhile nameChar)
              (le_trans (List.dropWhile_suffix nameChar).length_le ha) b]
        simp
      · simp only [hc, ite_false]
        exact ih rest ha b

theorem varMapFrom_append (xs : List (List Char)) :
    ∀ (y : List Char) (i : Nat) (m : List (String × Nat)),
      varMapFrom (xs ++ [y]) i m =
        mapInsert (varMapFrom xs i m) (String.mk y) (i + xs.length) := by
  induction xs with
  | nil => intro y i m; simp [varMapFrom]
  | cons x xs' ih =>
    intro y i m
    show varMapFrom (xs' ++ [y]) (i + 1) (mapInsert m (String.mk x) i) =
      mapInsert (varMapFrom xs' (i + 1) (mapInsert m (String.mk x) i))
        (String.mk y) (i + (xs'.length + 1))
    rw [ih]
    congr 1
    omega

theorem hashFind_map_replace (k : String) (v : Nat) :
    ∀ m : List (String × Nat),
      hashFind (m.map (fun p => if p.1 = k then (k, v) else p)) k =
        if m.any (fun p => decide (p.1 = k)) then some v else none := by
  intro m
  induction m with
  | nil => simp [hashFind]
  | cons p m' ih =>
    by_cases hp : p.1 = k
    · simp only [List.map_cons, hp, if_pos, List.any_cons, decide_True,
        Bool.true_or, ite_true]
      unfold hashFind
      rw [List.find?_cons_of_pos _ (by simp)]
      rfl
    · unfold hashFind
      rw [List.map_cons, if_neg hp, List.find?_cons_of_neg _ (by simp [hp])]
      have h2 := ih
      unfold hashFind at h2
      rw [h2]
      rw [List.any_cons, decide_eq_false hp, Bool.false_or]

theorem hashFind_append_fresh (k : String) (v : Nat)
    (m : List (String × Nat))
    (h : m.any (fun p => decide (p.1 = k)) = false) :
    hashFind (m ++ [(k, v)]) k = some v := by
  unfold hashFind
  rw [List.find?_append]
  have hnone : m.find? (fun p => decide (p.1 = k)) = none :=
    List.find?_eq_none.mpr (List.any_eq_false.mp h)
  rw [hnone]
  rw [Option.none_or, List.find?_cons_of_pos _ (by simp)]
  rfl

theorem hashFind_mapInsert_self (m : List (String × Nat)) (k : String)
    (v : Nat) : hashFind (mapInsert m k v) k = some v := by
  unfold mapInsert
  by_cases h : m.any (fun p => decide (p.1 = k)) = true
  · rw [if_pos h, hashFind_map_replace, if_pos h]
  · rw [if_neg h]
    exact hashFind_append_fresh k v m (Bool.not_eq_true _ ▸ h)

theorem append_format_var (p : String) :
    p ++ "(\\." ++ FORMAT_VAR ++ ")?" = p ++ "(\\.:format)?" := by
  rw [String.append_assoc, String.append_assoc]
  congr 1

/-- C4: a pattern with no explicit `format` variable is registered with the
optional trailing capture `(\.:format)?` appended and a `format` variable
automatically added (at the index following the pattern's own variables);
after matching, the `format` param equals the trailing `.ext` suffix when
present and is empty when not. -/
theorem add_route_auto_format :
    (∀ (H : Type) (routes : List (Route H)) (m : Method) (path : String)
       (handler : H) (routes' : List (Route H)),
      containsSub FORMAT_VAR.data path.data = false →
      add_route routes m path handler = some routes' →
      ∃ rt : Route H,
        routes' = routes ++ [rt] ∧
        rt.path = path ++ "(\\.:format)?" ∧
        hashFind rt.vars "format" =
          some (varOccurrences path.data).length) ∧
    (match_route testRouter .Get "/foo/John%20Doe.json").map
      (fun rr => rr.param "format") = some (some ".json") ∧
    (match_route testRouter .Get "/foo/42").map
      (fun rr => rr.param "format") = some (some "") := by
  refine ⟨?_, by decide, by decide⟩
  intro H routes m path handler routes' hnf hadd
  unfold add_route at hadd
  rw [hnf] at hadd
  simp only [Bool.false_eq_true, if_false] at hadd
  cases hcr : create_regex (path ++ "(\\." ++ FORMAT_VAR ++ ")?") with
  | none =>
    rw [hcr] at hadd
    simp at hadd
  | some mt =>
    rw [hcr] at hadd
    simp only [Option.some.injEq] at hadd
    refine ⟨{ path := path ++ "(\\." ++ FORMAT_VAR ++ ")?", method := m,
              handler := handler,
              vars := get_variable_info (path ++ "(\\." ++ FORMAT_VAR ++ ")?"),
              matcher := mt }, hadd.symm, append_format_var path, ?_⟩
    show hashFind
      (get_variable_info (path ++ "(\\." ++ FORMAT_VAR ++ ")?")) "format" =
        some (varOccurrences path.data).length
    rw [append_format_var]
    unfold get_variable_info
    have hdata : (path ++ "(\\.:format)?").data =
        path.data ++ '(' :: "\\.:format)?".data := by
      rw [String.data_append]
    rw [hdata]
    rw [varOccurrences_append_paren path.data.length path.data le_rfl]
    have hocc : varOccurrences ('(' :: "\\.:format)?".data) =
        ["format".data] := by decide
    rw [hocc, varMapFrom_append]
    have hfmt : String.mk "format".data = "format" := rfl
    rw [hfmt, hashFind_mapInsert_self]
    simp

/-- Witness for C4: registering `/foo/:userid` appends the format capture
and a `format` variable at index 1. -/
theorem add_route_auto_format_witness :
    ∃ rt : Route Unit,
      fooOnlyRouter = [] ++ [rt] ∧
      rt.path = "/foo/:userid" ++ "(\\.:format)?" ∧
      hashFind rt.vars "format" =
        some (varOccurrences "/foo/:userid".data).length :=
  add_route_auto_format.1 Unit [] .Get "/foo/:userid" () fooOnlyRouter
    (by decide) (by rfl)

end Floor
